import Mathlib

/-!
Verification of the CBClient template generator (`src/Python.py`).

Strings are modelled as `List Char`.  Character classes follow the ASCII
semantics of the Python operations involved (`str.lower`, `str.isalpha`,
`str.strip`, regular-expression character classes); every claim inspects
strings only after they have been filtered to ASCII character classes, so
the ASCII model is faithful on all paths the claims exercise.
-/

/-- ASCII lowercase letter `a`–`z` (codes 97–122). -/
def isLowerAlpha (c : Char) : Bool := decide (97 ≤ c.toNat ∧ c.toNat ≤ 122)

/-- ASCII uppercase letter `A`–`Z` (codes 65–90). -/
def isUpperAlpha (c : Char) : Bool := decide (65 ≤ c.toNat ∧ c.toNat ≤ 90)

/-- ASCII decimal digit `0`–`9` (codes 48–57). -/
def isDigit09 (c : Char) : Bool := decide (48 ≤ c.toNat ∧ c.toNat ≤ 57)

/-- Model of Python `str.isalpha` restricted to ASCII. -/
def isPyAlpha (c : Char) : Bool := isLowerAlpha c || isUpperAlpha c

/-- Model of Python `str.lower` (per character, ASCII). -/
def pyLower (c : Char) : Char :=
  if 65 ≤ c.toNat ∧ c.toNat ≤ 90 then Char.ofNat (c.toNat + 32) else c

/-- Model of Python `str.isspace` / default `str.strip` whitespace (ASCII). -/
def pyIsSpace (c : Char) : Bool :=
  c == ' ' || c == '\t' || c == '\n' || c == '\r' || c == '\x0b' || c == '\x0c'

/-- The two slug separator characters `_` and `-`. -/
def isSep (c : Char) : Bool := c == '_' || c == '-'

/-- The slug alphabet `[a-z0-9_-]` of `slugify_modid`. -/
def isSlugChar (c : Char) : Bool := isLowerAlpha c || isDigit09 c || isSep c

/-- The package alphabet `[a-z0-9_.]` of `safe_pkg`. -/
def isPkgChar (c : Char) : Bool := isLowerAlpha c || isDigit09 c || c == '_' || c == '.'

/-- ASCII model of the regex class `[\w\-. ]` used on `project_name`. -/
def isProjChar (c : Char) : Bool :=
  isLowerAlpha c || isUpperAlpha c || isDigit09 c || c == '_' || c == '-' ||
    c == '.' || c == ' '

/-- Remove the longest run of characters satisfying `p` from the tail of `l`
(model of one side of Python `str.strip`). -/
def dropTrailingWhile (p : Char → Bool) (l : List Char) : List Char :=
  (l.reverse.dropWhile p).reverse

/-- Model of Python `str.strip(chars)`: drop `p`-characters from both ends. -/
def stripBoth (p : Char → Bool) (l : List Char) : List Char :=
  dropTrailingWhile p (l.dropWhile p)

/-- Model of Python `str.strip()` (no argument: whitespace). -/
def pyStrip (l : List Char) : List Char := stripBoth pyIsSpace l

/-- Model of `re.sub(r'X+', lambda m: m.group()[0], s)` for the class `p`:
collapse every maximal run of `p`-characters to the run's first character.
`prev` records whether the previous kept character position is inside a run. -/
def collapseRunsAux (p : Char → Bool) : Bool → List Char → List Char
  | _, [] => []
  | prev, c :: rest =>
    if p c then
      if prev then collapseRunsAux p true rest
      else c :: collapseRunsAux p true rest
    else c :: collapseRunsAux p false rest

/-- Collapse maximal runs of `p`-characters to their first character. -/
def collapseRuns (p : Char → Bool) (l : List Char) : List Char :=
  collapseRunsAux p false l

/-- The per-character transformation `s.lower().replace(' ', '_')`. -/
def lowerSpaceToUnderscore (c : Char) : Char :=
  let c' := pyLower c
  if c' = ' ' then '_' else c'

/-- Embedding of `slugify_modid` (src/Python.py lines 41–47):
lowercase and turn spaces into `_`, delete everything outside `[a-z0-9_-]`,
collapse separator runs to their first character, strip separators at both
ends, prepend `c` (after removing leading digits/separators) when the result
is empty or does not start with a letter, fall back to `"cbclient"` when
still empty, and truncate to 64 characters. -/
def slugify_modid (s : List Char) : List Char :=
  let s1 := s.map lowerSpaceToUnderscore
  let s2 := s1.filter isSlugChar
  let s3 := stripBoth isSep (collapseRuns isSep s2)
  let s4 :=
    if s3.head?.any isPyAlpha then s3
    else 'c' :: s3.dropWhile (fun c => isDigit09 c || isSep c)
  (if s4 = [] then "cbclient".toList else s4).take 64

/-- The per-character transformation `s.lower().replace('-', '_').replace(' ', '_')`. -/
def lowerDashSpaceToUnderscore (c : Char) : Char :=
  let c' := pyLower c
  if c' = '-' ∨ c' = ' ' then '_' else c'

/-- Model of Python `'.'.join` on a list of segments. -/
def joinDots : List (List Char) → List Char
  | [] => []
  | [p] => p
  | p :: ps => p ++ '.' :: joinDots ps

/-- Model of Python `str.split('.')`: split at every dot, keeping empty
segments. -/
def splitDots : List Char → List (List Char)
  | [] => [[]]
  | c :: rest =>
    let r := splitDots rest
    if c = '.' then [] :: r else (c :: r.headD []) :: r.tail

/-- Head test `p[0].isalpha() or p[0] == '_'` on a package segment. -/
def segHeadOk : List Char → Bool
  | [] => false
  | c :: _ => isPyAlpha c || c == '_'

/-- Embedding of `safe_pkg` (src/Python.py lines 50–54):
lowercase, map `-` and space to `_`, delete everything outside `[a-z0-9_.]`,
collapse dot runs, strip dots at both ends, split on dots, drop empty
segments, prefix `p` to every segment not starting with a letter or `_`,
join with dots, and fall back to `"com.example"` when no segment survives. -/
def safe_pkg (s : List Char) : List Char :=
  let s1 := s.map lowerDashSpaceToUnderscore
  let s2 := s1.filter isPkgChar
  let s3 := stripBoth (· = '.') (collapseRuns (· = '.') s2)
  let parts := (splitDots s3).filter (· ≠ [])
  let fixed := parts.map (fun p => if segHeadOk p then p else 'p' :: p)
  if fixed = [] then "com.example".toList else joinDots fixed

/-- Embedding of the text branch of `write_file` (src/Python.py lines 57–63):
the bytes written for text content `c` are `c.strip() + '\n'`. -/
def write_file_text (content : List Char) : List Char :=
  pyStrip content ++ ['\n']

/-! ## Metadata model (src/Python.py lines 24–38 and 66–93) -/

/-- The locked version constants `LOCKED` (src/Python.py lines 24–32). -/
def LOCKED_minecraft_version : List Char := "1.21.4".toList

/-- Locked constant `LOCKED["yarn_mappings"]`. -/
def LOCKED_yarn_mappings : List Char := "1.21.4+build.4".toList

/-- Locked constant `LOCKED["loader_version"]`. -/
def LOCKED_loader_version : List Char := "0.18.4".toList

/-- Locked constant `LOCKED["fabric_api_version"]`. -/
def LOCKED_fabric_api_version : List Char := "0.119.4+1.21.4".toList

/-- Locked constant `LOCKED["loom_version"]`. -/
def LOCKED_loom_version : List Char := "1.14.9".toList

/-- Locked constant `LOCKED["recommended_gradle"]`. -/
def LOCKED_recommended_gradle : List Char := "9.3.1".toList

/-- Locked constant `LOCKED["java_version"]`. -/
def LOCKED_java_version : List Char := "21".toList

/-- The base64 source of the 16x16 PNG icon `ICON_B64` (src/Python.py lines 35–38). -/
def ICON_B64 : List Char :=
  ("iVBORw0KGgoAAAANSUhEUgAAABAAAAAQCAQAAAC1+jfqAAAAJElEQVR4AWP8z8Dwn4GBgYGJ" ++
    "gYGBoYHhP0YGBgYGAEo5A6oE9g8pAAAAAElFTkSuQmCC").toList

/-- The `Meta` dataclass (src/Python.py lines 66–77); all string fields are
modelled as `List Char`, the `authors` tuple as a list. -/
structure Meta where
  out_dir : List Char
  project_name : List Char
  client_name : List Char
  mod_id : List Char
  maven_group : List Char
  mod_version : List Char
  authors : List (List Char)
  description : List Char
  license_name : List Char
deriving DecidableEq

/-- Embedding of `Meta.base_package` (src/Python.py lines 78–80):
`safe_pkg(f"{self.maven_group}.{self.mod_id}")`. -/
def Meta.base_package (m : Meta) : List Char :=
  safe_pkg (m.maven_group ++ '.' :: m.mod_id)

/-- Embedding of `Meta.normalized` (src/Python.py lines 82–93).  Python string truthiness
(`x or fallback`) is modelled as an emptiness test on the string. -/
def Meta.normalized (m : Meta) : Meta where
  out_dir := m.out_dir
  project_name :=
    let s := pyStrip (m.project_name.filter isProjChar)
    if s = [] then "CBClient".toList else s
  client_name :=
    let s := pyStrip m.client_name
    if s = [] then "CBClient".toList else s
  mod_id := slugify_modid m.mod_id
  maven_group := safe_pkg m.maven_group
  mod_version :=
    let s := pyStrip m.mod_version
    if s = [] then "0.1.0".toList else s
  authors :=
    let l := (m.authors.filter (fun a => !(pyStrip a).isEmpty)).map pyStrip
    if l = [] then ["Unknown".toList] else l
  description :=
    pyStrip (if m.description = [] then
      m.client_name ++ " - Fabric client mod".toList else m.description)
  license_name :=
    let s := pyStrip m.license_name
    if s = [] then "MIT".toList else s

/-! ## JSON serialization (model of `json.dumps(..., indent=2)`) -/

/-- JSON values as built by the generator before serialization. -/
inductive JVal where
  | jstr (s : List Char)
  | jnum (n : Nat)
  | jbool (b : Bool)
  | jarr (xs : List JVal)
  | jobj (kvs : List (List Char × JVal))

/-- Lowercase hexadecimal digit. -/
def hexDigit (n : Nat) : Char :=
  if n < 10 then Char.ofNat (48 + n) else Char.ofNat (87 + n)

/-- Four-digit lowercase hexadecimal rendering for `\uXXXX` escapes. -/
def hex4 (n : Nat) : List Char :=
  [hexDigit (n / 4096 % 16), hexDigit (n / 256 % 16), hexDigit (n / 16 % 16),
    hexDigit (n % 16)]

/-- Escaping of one character inside a JSON string, following
`json.dumps` with its default `ensure_ascii=True`. -/
def jsonEscapeChar (c : Char) : List Char :=
  if c = '"' then ['\\', '"']
  else if c = '\\' then ['\\', '\\']
  else if c = '\n' then ['\\', 'n']
  else if c = '\t' then ['\\', 't']
  else if c = '\r' then ['\\', 'r']
  else if c.toNat = 8 then ['\\', 'b']
  else if c.toNat = 12 then ['\\', 'f']
  else if c.toNat < 32 then '\\' :: 'u' :: hex4 c.toNat
  else if c.toNat < 127 then [c]
  else if c.toNat < 65536 then '\\' :: 'u' :: hex4 c.toNat
  else
    let v := c.toNat - 65536
    '\\' :: 'u' :: hex4 (55296 + v / 1024) ++ '\\' :: 'u' :: hex4 (56320 + v % 1024)

/-- A serialized JSON string literal. -/
def jsonQuote (s : List Char) : List Char :=
  '"' :: (s.map jsonEscapeChar).flatten ++ ['"']

/-- Indentation prefix at depth `d` (`d` spaces). -/
def indentChars (d : Nat) : List Char := List.replicate d ' '

/-- Join pre-rendered items with `",\n"` (the separator `json.dumps` uses
between items when an `indent` is given). -/
def joinCommaNewline : List (List Char) → List Char
  | [] => []
  | [x] => x
  | x :: xs => x ++ ',' :: '\n' :: joinCommaNewline xs

/-- Model of `json.dumps(v, indent=2)` at nesting depth `d`. -/
def dumpJ (d : Nat) : JVal → List Char
  | .jstr s => jsonQuote s
  | .jnum n => Nat.toDigits 10 n
  | .jbool b => if b then "true".toList else "false".toList
  | .jarr [] => "[]".toList
  | .jarr (x :: xs) =>
    '[' :: '\n' ::
      joinCommaNewline (((x :: xs).attach.map
        (fun y => indentChars (d + 2) ++ dumpJ (d + 2) y.1))) ++
      '\n' :: indentChars d ++ [']']
  | .jobj [] => "\x7b\x7d".toList
  | .jobj (kv :: kvs) =>
    '\x7b' :: '\n' ::
      joinCommaNewline (((kv :: kvs).attach.map
        (fun y => indentChars (d + 2) ++ jsonQuote y.1.1 ++ ':' :: ' ' ::
          dumpJ (d + 2) y.1.2))) ++
      '\n' :: indentChars d ++ ['\x7d']
termination_by v => sizeOf v
decreasing_by
  · have h := List.sizeOf_lt_of_mem y.2
    simp only [JVal.jarr.sizeOf_spec]
    omega
  · have h := List.sizeOf_lt_of_mem y.2
    have h2 : sizeOf y.1.2 < sizeOf y.1 := by
      obtain ⟨a, b⟩ := y.1
      simp only [Prod.mk.sizeOf_spec]
      omega
    simp only [JVal.jobj.sizeOf_spec]
    omega

/-! ## Template set (src/Python.py lines 96–354)

Each definition below is the content string handed to `write_file` for one
generated file, with the `t` helper's `.format`/`.strip()` already applied:
the literal parts are the template text (`{{`/`}}` rendered as braces) and
the holes are the metadata fields and locked constants the source passes
to `.format`. -/

/-- Rendered `settings.gradle` content. -/
def settingsGradle (m : Meta) : List Char :=
  pyStrip ("\n        pluginManagement \x7b\n            repositories \x7b\n                maven \x7b url = 'https://maven.fabricmc.net/' \x7d\n                gradlePluginPortal()\n            \x7d\n        \x7d\n        rootProject.name = '".toList ++ m.project_name ++ "'\n    ".toList)

/-- Rendered `gradle.properties` content. -/
def gradleProperties (m : Meta) : List Char :=
  pyStrip ("\n        org.gradle.jvmargs=-Xmx2G -Dfile.encoding=UTF-8\n        org.gradle.parallel=true\n        minecraft_version=".toList ++ LOCKED_minecraft_version ++ "\n        yarn_mappings=".toList ++ LOCKED_yarn_mappings ++ "\n        loader_version=".toList ++ LOCKED_loader_version ++ "\n        fabric_api_version=".toList ++ LOCKED_fabric_api_version ++ "\n        loom_version=".toList ++ LOCKED_loom_version ++ "\n        maven_group=".toList ++ m.maven_group ++ "\n        archives_base_name=".toList ++ m.mod_id ++ "\n        mod_version=".toList ++ m.mod_version ++ "\n    ".toList)

/-- Rendered `build.gradle` content (only locked constants are interpolated;
the `$\x7b...\x7d` fragments are literal Gradle interpolations produced by the
template's escaped braces). -/
def buildGradle : List Char :=
  pyStrip ("\n        plugins \x7b\n            id 'fabric-loom' version '".toList ++ LOCKED_loom_version ++ "'\n            id 'maven-publish'\n        \x7d\n        version = project.mod_version\n        group = project.maven_group\n        base \x7b archivesName = project.archives_base_name \x7d\n        \n        repositories \x7b\n            maven \x7b url = 'https://maven.fabricmc.net/' \x7d\n            mavenCentral()\n        \x7d\n        \n        dependencies \x7b\n            minecraft \"com.mojang:minecraft:$\x7bminecraft_version\x7d\"\n            mappings \"net.fabricmc:yarn:$\x7byarn_mappings\x7d:v2\"\n            modImplementation \"net.fabricmc:fabric-loader:$\x7bloader_version\x7d\"\n            modImplementation \"net.fabricmc.fabric-api:fabric-api:$\x7bfabric_api_version\x7d\"\n        \x7d\n        \n        tasks.withType(JavaCompile).configureEach \x7b\n            it.options.encoding = 'UTF-8'\n            it.options.release = ".toList ++ LOCKED_java_version ++ "\n        \x7d\n        \n        java \x7b\n            toolchain \x7b languageVersion = JavaLanguageVersion.of(".toList ++ LOCKED_java_version ++ ") \x7d\n            withSourcesJar()\n        \x7d\n        \n        processResources \x7b\n            inputs.property \"version\", project.version\n            filesMatching(\"fabric.mod.json\") \x7b expand \"version\": project.version \x7d\n        \x7d\n    ".toList)

/-- Content of `.gitignore` (written directly, without the `t` helper). -/
def gitignoreContent : List Char :=
  ".gradle/\nbuild/\nout/\n.idea/\n*.iml\nrun/\nlogs/".toList

/-- Rendered `README.md` content. -/
def readmeMd (m : Meta) : List Char :=
  pyStrip ("\n        # ".toList ++ m.client_name ++ " (Fabric ".toList ++ LOCKED_minecraft_version ++ ")\n        \n        Run: `./gradlew runClient` (or `.\\gradlew.bat runClient` on Windows)\n        Build: `./gradlew build`\n        \n        Press Right Shift in-game to open GUI.\n    ".toList)

/-- The key/value list of the `fabric.mod.json` manifest dict
(src/Python.py lines 186–204), in source order. -/
def fabricKVs (m : Meta) : List (List Char × JVal) :=
  [("schemaVersion".toList, .jnum 1),
   ("id".toList, .jstr m.mod_id),
   ("version".toList, .jstr "$\x7bversion\x7d".toList),
   ("name".toList, .jstr m.client_name),
   ("description".toList, .jstr m.description),
   ("authors".toList, .jarr (m.authors.map .jstr)),
   ("license".toList, .jstr m.license_name),
   ("icon".toList, .jstr ("assets/".toList ++ m.mod_id ++ "/icon.png".toList)),
   ("environment".toList, .jstr "client".toList),
   ("entrypoints".toList,
     .jobj [("client".toList, .jarr [.jstr (m.base_package ++ ".CBClient".toList)])]),
   ("mixins".toList, .jarr [.jstr (m.mod_id ++ ".mixins.json".toList)]),
   ("depends".toList,
     .jobj [("fabricloader".toList, .jstr ">=0.18.0".toList),
            ("minecraft".toList, .jstr ('=' :: LOCKED_minecraft_version)),
            ("java".toList, .jstr (">=".toList ++ LOCKED_java_version)),
            ("fabric-api".toList, .jstr "*".toList)])]

/-- Serialized `fabric.mod.json` content. -/
def fabricModJson (m : Meta) : List Char := dumpJ 0 (.jobj (fabricKVs m))

/-- The key/value list of the `<mod_id>.mixins.json` dict
(src/Python.py lines 206–213). -/
def mixinsKVs (m : Meta) : List (List Char × JVal) :=
  [("required".toList, .jbool true),
   ("minVersion".toList, .jstr "0.8".toList),
   ("package".toList, .jstr (m.base_package ++ ".mixin".toList)),
   ("compatibilityLevel".toList, .jstr ("JAVA_".toList ++ LOCKED_java_version)),
   ("client".toList, .jarr [.jstr "MinecraftClientMixin".toList]),
   ("injectors".toList, .jobj [("defaultRequire".toList, .jnum 1)])]

/-- Serialized `<mod_id>.mixins.json` content. -/
def mixinsJson (m : Meta) : List Char := dumpJ 0 (.jobj (mixinsKVs m))

/-- Serialized `assets/<mod_id>/lang/en_us.json` content
(src/Python.py lines 216–220). -/
def langJson (m : Meta) : List Char :=
  dumpJ 0 (.jobj
    [("key.".toList ++ m.mod_id ++ ".open_gui".toList,
       .jstr ("Open ".toList ++ m.client_name ++ " GUI".toList)),
     ("category.".toList ++ m.mod_id, .jstr m.client_name)])

/-- Rendered `CBClient.java` content. -/
def cbClientJava (m : Meta) : List Char :=
  pyStrip ("\n        package ".toList ++ m.base_package ++ ";\n        import ".toList ++ m.base_package ++ ".module.ModuleManager;\n        import ".toList ++ m.base_package ++ ".gui.ClientScreen;\n        import net.fabricmc.api.ClientModInitializer;\n        import net.fabricmc.fabric.api.client.event.lifecycle.v1.ClientTickEvents;\n        import net.fabricmc.fabric.api.client.keybinding.v1.KeyBindingHelper;\n        import net.minecraft.client.option.KeyBinding;\n        import net.minecraft.client.util.InputUtil;\n        import net.minecraft.text.Text;\n        import org.lwjgl.glfw.GLFW;\n        import org.slf4j.Logger;\n        import org.slf4j.LoggerFactory;\n        \n        public class CBClient implements ClientModInitializer \x7b\n            public static final String MOD_ID = \"".toList ++ m.mod_id ++ "\";\n            public static final String CLIENT_NAME = \"".toList ++ m.client_name ++ "\";\n            public static final Logger LOGGER = LoggerFactory.getLogger(MOD_ID);\n            private static KeyBinding openGuiKey;\n            \n            @Override\n            public void onInitializeClient() \x7b\n                LOGGER.info(\"[\x7b\x7d] init\", CLIENT_NAME);\n                ModuleManager.init();\n                openGuiKey = KeyBindingHelper.registerKeyBinding(new KeyBinding(\n                    \"key.".toList ++ m.mod_id ++ ".open_gui\", InputUtil.Type.KEYSYM,\n                    GLFW.GLFW_KEY_RIGHT_SHIFT, \"category.".toList ++ m.mod_id ++ "\"));\n                ClientTickEvents.END_CLIENT_TICK.register(client -> \x7b\n                    while (openGuiKey.wasPressed()) \x7b\n                        if (client.currentScreen == null)\n                            client.setScreen(new ClientScreen(Text.of(CLIENT_NAME)));\n                    \x7d\n                \x7d);\n            \x7d\n        \x7d\n    ".toList)

/-- Rendered `module/Module.java` content. -/
def moduleJava (m : Meta) : List Char :=
  pyStrip ("\n        package ".toList ++ m.base_package ++ ".module;\n        public abstract class Module \x7b\n            private final String name;\n            private boolean enabled;\n            public Module(String name) \x7b this.name = name; \x7d\n            public String getName() \x7b return name; \x7d\n            public boolean isEnabled() \x7b return enabled; \x7d\n            public void setEnabled(boolean enabled) \x7b\n                if (this.enabled != enabled) \x7b\n                    this.enabled = enabled;\n                    if (enabled) onEnable(); else onDisable();\n                \x7d\n            \x7d\n            public void toggle() \x7b setEnabled(!enabled); \x7d\n            protected void onEnable() \x7b\x7d\n            protected void onDisable() \x7b\x7d\n        \x7d\n    ".toList)

/-- Rendered `module/ModuleManager.java` content. -/
def moduleManagerJava (m : Meta) : List Char :=
  pyStrip ("\n        package ".toList ++ m.base_package ++ ".module;\n        import java.util.*;\n        public final class ModuleManager \x7b\n            private static final List<Module> MODULES = new ArrayList<>();\n            public static void init() \x7b MODULES.add(new ExampleModule()); \x7d\n            public static List<Module> all() \x7b return Collections.unmodifiableList(MODULES); \x7d\n        \x7d\n    ".toList)

/-- Rendered `module/ExampleModule.java` content. -/
def exampleModuleJava (m : Meta) : List Char :=
  pyStrip ("\n        package ".toList ++ m.base_package ++ ".module;\n        import ".toList ++ m.base_package ++ ".CBClient;\n        public class ExampleModule extends Module \x7b\n            public ExampleModule() \x7b super(\"Example\"); \x7d\n            @Override protected void onEnable() \x7b CBClient.LOGGER.info(\"Example ON\"); \x7d\n            @Override protected void onDisable() \x7b CBClient.LOGGER.info(\"Example OFF\"); \x7d\n        \x7d\n    ".toList)

/-- Rendered `gui/ClientScreen.java` content. -/
def clientScreenJava (m : Meta) : List Char :=
  pyStrip ("\n        package ".toList ++ m.base_package ++ ".gui;\n        import ".toList ++ m.base_package ++ ".module.*;\n        import net.minecraft.client.gui.screen.Screen;\n        import net.minecraft.client.gui.widget.ButtonWidget;\n        import net.minecraft.text.Text;\n        \n        public class ClientScreen extends Screen \x7b\n            public ClientScreen(Text title) \x7b super(title); \x7d\n            @Override\n            protected void init() \x7b\n                int y = 40, x = this.width / 2 - 100;\n                for (Module m : ModuleManager.all()) \x7b\n                    ButtonWidget btn = ButtonWidget.builder(labelFor(m), b -> \x7b\n                        m.toggle(); b.setMessage(labelFor(m));\n                    \x7d).dimensions(x, y, 200, 20).build();\n                    this.addDrawableChild(btn);\n                    y += 24;\n                \x7d\n                this.addDrawableChild(ButtonWidget.builder(Text.of(\"Close\"), b -> this.close())\n                    .dimensions(x, y + 10, 200, 20).build());\n            \x7d\n            private Text labelFor(Module m) \x7b\n                return Text.of(m.getName() + \" : \" + (m.isEnabled() ? \"ON\" : \"OFF\"));\n            \x7d\n        \x7d\n    ".toList)

/-- Rendered `mixin/MinecraftClientMixin.java` content. -/
def mixinJava (m : Meta) : List Char :=
  pyStrip ("\n        package ".toList ++ m.base_package ++ ".mixin;\n        import ".toList ++ m.base_package ++ ".CBClient;\n        import net.minecraft.client.MinecraftClient;\n        import org.spongepowered.asm.mixin.Mixin;\n        import org.spongepowered.asm.mixin.injection.*;\n        import org.spongepowered.asm.mixin.injection.callback.CallbackInfoReturnable;\n        \n        @Mixin(MinecraftClient.class)\n        public class MinecraftClientMixin \x7b\n            @Inject(method = \"getWindowTitle\", at = @At(\"HEAD\"), cancellable = true)\n            private void cbclient$windowTitle(CallbackInfoReturnable<String> cir) \x7b\n                cir.setReturnValue(CBClient.CLIENT_NAME + \" | ".toList ++ LOCKED_minecraft_version ++ "\");\n            \x7d\n        \x7d\n    ".toList)

/-! ## Tree writer and generation pipeline -/

/-- A file's content as handed to `write_file`: text (later stripped and
newline-terminated by `write_file`) or binary (the icon, written verbatim;
the payload is represented by its base64 source `ICON_B64`). -/
inductive Content where
  | text (s : List Char)
  | binary (b64 : List Char)
deriving DecidableEq

/-- The path of the resources directory `res = root / "src/main/resources"`
joined with a relative path below it. -/
def resPath (rel : List Char) : List Char :=
  "src/main/resources/".toList ++ rel

/-- Model of `base_package.replace('.', '/')`. -/
def dotsToSlashes (l : List Char) : List Char :=
  l.map (fun c => if c = '.' then '/' else c)

/-- The path of `java_root = root / f"src/main/java/{base_package.replace('.', '/')}"`
joined with a relative path below it. -/
def javaPath (m : Meta) (rel : List Char) : List Char :=
  "src/main/java/".toList ++ dotsToSlashes m.base_package ++ '/' :: rel

/-- The full set of files written by `generate` (src/Python.py lines 111–351),
as (path relative to the resolved target root, content) pairs in write order.
It is a function of the already-normalized metadata only. -/
def generateWrites (m : Meta) : List (List Char × Content) :=
  [("settings.gradle".toList, .text (settingsGradle m)),
   ("gradle.properties".toList, .text (gradleProperties m)),
   ("build.gradle".toList, .text buildGradle),
   (".gitignore".toList, .text gitignoreContent),
   ("README.md".toList, .text (readmeMd m)),
   (resPath "fabric.mod.json".toList, .text (fabricModJson m)),
   (resPath (m.mod_id ++ ".mixins.json".toList), .text (mixinsJson m)),
   (resPath ("assets/".toList ++ m.mod_id ++ "/lang/en_us.json".toList),
     .text (langJson m)),
   (resPath ("assets/".toList ++ m.mod_id ++ "/icon.png".toList),
     .binary ICON_B64),
   (javaPath m "CBClient.java".toList, .text (cbClientJava m)),
   (javaPath m "module/Module.java".toList, .text (moduleJava m)),
   (javaPath m "module/ModuleManager.java".toList, .text (moduleManagerJava m)),
   (javaPath m "module/ExampleModule.java".toList, .text (exampleModuleJava m)),
   (javaPath m "gui/ClientScreen.java".toList, .text (clientScreenJava m)),
   (javaPath m "mixin/MinecraftClientMixin.java".toList, .text (mixinJava m))]

/-- The generation entry point `generate` (src/Python.py lines 96–354).
The filesystem is abstracted by the two observations the code makes
(`root.exists()` and `any(root.iterdir())`) and the clock by the formatted
timestamp string `now`.  It returns the resolved target root together with
the root-relative write set. -/
def generate (dirExists dirNonEmpty : List Char → Bool) (now : List Char)
    (meta : Meta) : List Char × List (List Char × Content) :=
  let m := meta.normalized
  let cand := m.out_dir ++ '/' :: m.project_name
  let root := if dirExists cand && dirNonEmpty cand then
      m.out_dir ++ '/' :: (m.project_name ++ '_' :: now)
    else cand
  (root, generateWrites m)

/-! ## Character-class lemmas -/

lemma char_eq_iff_toNat {c d : Char} : c = d ↔ c.toNat = d.toNat := by
  constructor
  · rintro rfl; rfl
  · intro h
    rw [← Char.ofNat_toNat c, h, Char.ofNat_toNat]

lemma isSep_iff_toNat {c : Char} : isSep c = true ↔ c.toNat = 95 ∨ c.toNat = 45 := by
  simp only [isSep, Bool.or_eq_true, beq_iff_eq]
  rw [char_eq_iff_toNat (d := '_'), char_eq_iff_toNat (d := '-')]
  rfl

lemma isSlugChar_cases {c : Char} (h : isSlugChar c = true) :
    (97 ≤ c.toNat ∧ c.toNat ≤ 122) ∨ (48 ≤ c.toNat ∧ c.toNat ≤ 57) ∨
      c.toNat = 95 ∨ c.toNat = 45 := by
  simp only [isSlugChar, isLowerAlpha, isDigit09, Bool.or_eq_true,
    decide_eq_true_eq] at h
  rcases h with (h | h) | h
  · exact Or.inl h
  · exact Or.inr (Or.inl h)
  · exact Or.inr (Or.inr (isSep_iff_toNat.mp h))

lemma isPkgChar_cases {c : Char} (h : isPkgChar c = true) :
    (97 ≤ c.toNat ∧ c.toNat ≤ 122) ∨ (48 ≤ c.toNat ∧ c.toNat ≤ 57) ∨
      c.toNat = 95 ∨ c.toNat = 46 := by
  simp only [isPkgChar, isLowerAlpha, isDigit09, Bool.or_eq_true,
    decide_eq_true_eq, beq_iff_eq] at h
  rcases h with ((h | h) | h) | h
  · exact Or.inl h
  · exact Or.inr (Or.inl h)
  · exact Or.inr (Or.inr (Or.inl (char_eq_iff_toNat.mp h)))
  · exact Or.inr (Or.inr (Or.inr (char_eq_iff_toNat.mp h)))

lemma pyLower_eq_self {c : Char} (h : ¬(65 ≤ c.toNat ∧ c.toNat ≤ 90)) :
    pyLower c = c := by
  simp [pyLower, h]

lemma lowerSpaceToUnderscore_eq_self {c : Char} (h : isSlugChar c = true) :
    lowerSpaceToUnderscore c = c := by
  have h2 := isSlugChar_cases h
  have h3 : pyLower c = c := pyLower_eq_self (by omega)
  have h4 : c ≠ ' ' := by
    intro hc
    have h5 : c.toNat = 32 := char_eq_iff_toNat.mp hc
    omega
  simp [lowerSpaceToUnderscore, h3, h4]

lemma slug_pyAlpha_lower {c : Char} (h1 : isSlugChar c = true)
    (h2 : isPyAlpha c = true) : isLowerAlpha c = true := by
  have h3 := isSlugChar_cases h1
  simp only [isPyAlpha, isLowerAlpha, isUpperAlpha, Bool.or_eq_true,
    decide_eq_true_eq] at h2 ⊢
  omega

lemma pkg_pyAlpha_lower {c : Char} (h1 : isPkgChar c = true)
    (h2 : isPyAlpha c = true) : isLowerAlpha c = true := by
  have h3 := isPkgChar_cases h1
  simp only [isPyAlpha, isLowerAlpha, isUpperAlpha, Bool.or_eq_true,
    decide_eq_true_eq] at h2 ⊢
  omega

lemma lowerAlpha_not_sep {c : Char} (h : isLowerAlpha c = true) :
    isSep c = false := by
  simp only [isLowerAlpha, decide_eq_true_eq] at h
  rw [Bool.eq_false_iff]
  intro hs
  have := isSep_iff_toNat.mp hs
  omega

lemma pkgChar_ne_dot {c : Char} (h1 : isPkgChar c = true) (h2 : c ≠ '.') :
    (isLowerAlpha c || isDigit09 c || c == '_') = true := by
  have h3 := isPkgChar_cases h1
  have h4 : c.toNat ≠ 46 := by
    intro hc
    exact h2 (char_eq_iff_toNat.mpr hc)
  simp only [isLowerAlpha, isDigit09, Bool.or_eq_true, decide_eq_true_eq,
    beq_iff_eq, char_eq_iff_toNat (d := '_')]
  show _ ∨ c.toNat = 95
  omega

/-! ## Run-collapsing lemmas -/

lemma mem_collapseRunsAux {p : Char → Bool} :
    ∀ (l : List Char) (prev : Bool) (c : Char),
      c ∈ collapseRunsAux p prev l → c ∈ l := by
  intro l
  induction l with
  | nil => intro prev c h; simp [collapseRunsAux] at h
  | cons a rest ih =>
    intro prev c h
    simp only [collapseRunsAux] at h
    by_cases hp : p a = true
    · rw [if_pos hp] at h
      cases prev with
      | true =>
        simp only [if_pos rfl] at h
        exact List.mem_cons_of_mem a (ih true c h)
      | false =>
        simp only [Bool.false_eq_true, if_neg] at h
        rcases List.mem_cons.mp h with h | h
        · exact h ▸ List.mem_cons_self a rest
        · exact List.mem_cons_of_mem a (ih true c h)
    · rw [if_neg hp] at h
      rcases List.mem_cons.mp h with h | h
      · exact h ▸ List.mem_cons_self a rest
      · exact List.mem_cons_of_mem a (ih false c h)

lemma collapseRunsAux_chain' {p : Char → Bool} :
    ∀ (l : List Char) (prev : Bool),
      List.Chain' (fun a b => ¬(p a = true ∧ p b = true))
          (collapseRunsAux p prev l) ∧
        (prev = true → ∀ c ∈ (collapseRunsAux p prev l).head?, p c = false) := by
  intro l
  induction l with
  | nil => intro prev; simp [collapseRunsAux]
  | cons a rest ih =>
    intro prev
    simp only [collapseRunsAux]
    by_cases hp : p a = true
    · rw [if_pos hp]
      cases prev with
      | true =>
        simp only [if_pos rfl]
        exact ⟨(ih true).1, fun _ => (ih true).2 rfl⟩
      | false =>
        rw [if_neg Bool.false_ne_true]
        constructor
        · rw [List.chain'_cons']
          refine ⟨?_, (ih true).1⟩
          intro y hy
          have := (ih true).2 rfl y hy
          intro hc
          rw [this] at hc
          exact Bool.false_ne_true hc.2
        · intro h
          exact absurd h Bool.false_ne_true
    · rw [if_neg hp]
      constructor
      · rw [List.chain'_cons']
        refine ⟨?_, (ih false).1⟩
        intro y hy hc
        exact hp hc.1
      · intro _ c hc
        rw [List.head?_cons, Option.mem_some_iff] at hc
        subst hc
        exact Bool.not_eq_true _ ▸ (Bool.eq_false_iff.mpr hp)

lemma collapseRunsAux_eq_self {p : Char → Bool} :
    ∀ (l : List Char) (prev : Bool),
      List.Chain' (fun a b => ¬(p a = true ∧ p b = true)) l →
      (prev = true → ∀ c ∈ l.head?, p c = false) →
      collapseRunsAux p prev l = l := by
  intro l
  induction l with
  | nil => intro prev _ _; simp [collapseRunsAux]
  | cons a rest ih =>
    intro prev hch hhd
    simp only [collapseRunsAux]
    by_cases hp : p a = true
    · rw [if_pos hp]
      have hprev : prev = false := by
        cases prev with
        | false => rfl
        | true =>
          have := hhd rfl a (by simp)
          rw [this] at hp
          exact absurd hp Bool.false_ne_true
      subst hprev
      rw [if_neg Bool.false_ne_true]
      congr 1
      apply ih true ((List.chain'_cons'.mp hch).2)
      intro _ c hc
      have := (List.chain'_cons'.mp hch).1 c hc
      rw [Bool.eq_false_iff]
      intro hpc
      exact this ⟨hp, hpc⟩
    · rw [if_neg hp]
      congr 1
      exact ih false ((List.chain'_cons'.mp hch).2) (fun h => absurd h Bool.false_ne_true)

/-! ## Stripping lemmas -/

lemma mem_dropTrailingWhile {p : Char → Bool} {l : List Char} {c : Char}
    (h : c ∈ dropTrailingWhile p l) : c ∈ l := by
  unfold dropTrailingWhile at h
  rw [List.mem_reverse] at h
  have := (List.dropWhile_sublist p).mem h
  rwa [List.mem_reverse] at this

lemma mem_stripBoth {p : Char → Bool} {l : List Char} {c : Char}
    (h : c ∈ stripBoth p l) : c ∈ l :=
  (List.dropWhile_sublist p).mem (mem_dropTrailingWhile h)

lemma chain'_dropTrailingWhile {R : Char → Char → Prop} {p : Char → Bool}
    {l : List Char} (h : List.Chain' R l) :
    List.Chain' R (dropTrailingWhile p l) := by
  unfold dropTrailingWhile
  rw [List.chain'_reverse]
  apply List.Chain'.suffix ?_ (List.dropWhile_suffix p)
  rw [List.chain'_reverse]
  exact h

lemma chain'_stripBoth {R : Char → Char → Prop} {p : Char → Bool}
    {l : List Char} (h : List.Chain' R l) :
    List.Chain' R (stripBoth p l) :=
  chain'_dropTrailingWhile (List.Chain'.suffix h (List.dropWhile_suffix p))

lemma chain'_take {α : Type} {R : α → α → Prop} :
    ∀ (n : Nat) (l : List α), List.Chain' R l → List.Chain' R (l.take n) := by
  intro n l
  induction l generalizing n with
  | nil => intro _; simp
  | cons a t ih =>
    intro h
    cases n with
    | zero => simp
    | succ n' =>
      rw [List.take_succ_cons, List.chain'_cons']
      obtain ⟨h1, h2⟩ := List.chain'_cons'.mp h
      refine ⟨?_, ih n' h2⟩
      intro y hy
      apply h1
      cases t with
      | nil => simp at hy
      | cons b t' =>
        cases n' with
        | zero => simp at hy
        | succ n'' =>
          rw [List.take_succ_cons, List.head?_cons] at hy
          simpa using hy

lemma dropWhile_eq_self_of_head {p : Char → Bool} {l : List Char}
    (h : ∀ c ∈ l.head?, p c = false) : l.dropWhile p = l := by
  cases l with
  | nil => rfl
  | cons a t =>
    have ha := h a (by simp)
    rw [List.dropWhile_cons, if_neg (by simp [ha])]

lemma dropTrailingWhile_eq_self {p : Char → Bool} {l : List Char}
    (h : ∀ c ∈ l.getLast?, p c = false) : dropTrailingWhile p l = l := by
  unfold dropTrailingWhile
  rw [dropWhile_eq_self_of_head (by simpa using h), List.reverse_reverse]

lemma getLast?_dropTrailingWhile_not {p : Char → Bool} {l : List Char} :
    ∀ c ∈ (dropTrailingWhile p l).getLast?, p c = false := by
  intro c hc
  unfold dropTrailingWhile at hc
  rw [List.getLast?_reverse] at hc
  have h := List.head?_dropWhile_not p l.reverse
  revert h
  cases hh : (l.reverse.dropWhile p).head? with
  | none => rw [hh] at hc; simp at hc
  | some d =>
    rw [hh] at hc
    intro h
    simp only [Option.mem_some_iff] at hc
    subst hc
    exact h

lemma getLast?_stripBoth_not {p : Char → Bool} {l : List Char} :
    ∀ c ∈ (stripBoth p l).getLast?, p c = false :=
  getLast?_dropTrailingWhile_not

lemma stripBoth_eq_nil_all {p : Char → Bool} {l : List Char}
    (h : stripBoth p l = []) : ∀ c ∈ l, p c = true := by
  unfold stripBoth dropTrailingWhile at h
  rw [List.reverse_eq_nil_iff, List.dropWhile_eq_nil_iff] at h
  have hdrop : ∀ c ∈ l.dropWhile p, p c = true := by
    intro c hc
    exact h c (List.mem_reverse.mpr hc)
  intro c hc
  rw [← List.takeWhile_append_dropWhile (p := p) (l := l), List.mem_append] at hc
  rcases hc with hc | hc
  · exact List.mem_takeWhile_imp hc
  · exact hdrop c hc

lemma pyStrip_ne_nil {l : List Char} (c : Char) (hc : c ∈ l)
    (hns : pyIsSpace c = false) : pyStrip l ≠ [] := by
  intro h
  have hall := stripBoth_eq_nil_all h c hc
  rw [hall] at hns
  simp at hns

/-! ## splitDots / joinDots lemmas -/

lemma splitDots_ne_nil : ∀ l : List Char, splitDots l ≠ [] := by
  intro l
  cases l with
  | nil => simp [splitDots]
  | cons c rest =>
    simp only [splitDots]
    by_cases hc : c = '.'
    · rw [if_pos hc]; simp
    · rw [if_neg hc]; simp

lemma mem_splitDots_no_dot :
    ∀ (l : List Char) (p : List Char), p ∈ splitDots l → '.' ∉ p := by
  intro l
  induction l with
  | nil =>
    intro p hp
    simp only [splitDots, List.mem_singleton] at hp
    subst hp
    simp
  | cons c rest ih =>
    intro p hp
    simp only [splitDots] at hp
    by_cases hc : c = '.'
    · rw [if_pos hc] at hp
      rcases List.mem_cons.mp hp with hp | hp
      · subst hp; simp
      · exact ih p hp
    · rw [if_neg hc] at hp
      rcases List.mem_cons.mp hp with hp | hp
      · subst hp
        intro hm
        rcases List.mem_cons.mp hm with hm | hm
        · exact hc hm.symm
        · cases hs : splitDots rest with
          | nil => exact absurd hs (splitDots_ne_nil rest)
          | cons q qs =>
            rw [hs] at hm
            exact ih q (hs ▸ List.mem_cons_self q qs) (by simpa using hm)
      · cases hs : splitDots rest with
        | nil => exact absurd hs (splitDots_ne_nil rest)
        | cons q qs =>
          rw [hs] at hp
          exact ih p (hs ▸ List.mem_cons_of_mem q (by simpa using hp))

lemma mem_of_mem_splitDots :
    ∀ (l : List Char) (p : List Char) (c : Char),
      p ∈ splitDots l → c ∈ p → c ∈ l := by
  intro l
  induction l with
  | nil =>
    intro p c hp hc
    simp only [splitDots, List.mem_singleton] at hp
    subst hp
    simp at hc
  | cons a rest ih =>
    intro p c hp hc
    simp only [splitDots] at hp
    by_cases ha : a = '.'
    · rw [if_pos ha] at hp
      rcases List.mem_cons.mp hp with hp | hp
      · subst hp; simp at hc
      · exact List.mem_cons_of_mem a (ih p c hp hc)
    · rw [if_neg ha] at hp
      cases hs : splitDots rest with
      | nil => exact absurd hs (splitDots_ne_nil rest)
      | cons q qs =>
        rw [hs] at hp
        rcases List.mem_cons.mp hp with hp | hp
        · subst hp
          simp only [List.headD_cons] at hc
          rcases List.mem_cons.mp hc with hc | hc
          · exact hc ▸ List.mem_cons_self a rest
          · exact List.mem_cons_of_mem a
              (ih q c (hs ▸ List.mem_cons_self q qs) hc)
        · simp only [List.tail_cons] at hp
          exact List.mem_cons_of_mem a
            (ih p c (hs ▸ List.mem_cons_of_mem q hp) hc)

lemma splitDots_append :
    ∀ (p l : List Char), '.' ∉ p →
      splitDots (p ++ l) = (p ++ (splitDots l).headD []) :: (splitDots l).tail := by
  intro p
  induction p with
  | nil =>
    intro l _
    simp only [List.nil_append]
    cases hs : splitDots l with
    | nil => exact absurd hs (splitDots_ne_nil l)
    | cons q qs => simp
  | cons c p' ih =>
    intro l hnd
    have hc : c ≠ '.' := by
      intro h
      exact hnd (h ▸ List.mem_cons_self c p')
    have hnd' : '.' ∉ p' := fun h => hnd (List.mem_cons_of_mem c h)
    rw [List.cons_append]
    simp only [splitDots]
    rw [ih l hnd', if_neg hc]
    simp

lemma splitDots_joinDots :
    ∀ (ps : List (List Char)), ps ≠ [] → (∀ p ∈ ps, '.' ∉ p) →
      splitDots (joinDots ps) = ps := by
  intro ps
  induction ps with
  | nil => intro h _; exact absurd rfl h
  | cons p ps' ih =>
    intro _ hnd
    cases ps' with
    | nil =>
      show splitDots (joinDots [p]) = [p]
      simp only [joinDots]
      rw [← List.append_nil p, splitDots_append p [] (hnd p (List.mem_cons_self p []))]
      simp [splitDots]
    | cons q qs =>
      show splitDots (p ++ '.' :: joinDots (q :: qs)) = p :: q :: qs
      rw [splitDots_append p ('.' :: joinDots (q :: qs))
        (hnd p (List.mem_cons_self p _))]
      have hrec : splitDots ('.' :: joinDots (q :: qs)) =
          [] :: splitDots (joinDots (q :: qs)) := by
        simp [splitDots]
      rw [hrec]
      rw [ih (by simp) (fun r hr => hnd r (List.mem_cons_of_mem p hr))]
      simp

lemma head?_take_pos {α : Type} (l : List α) (n : Nat) (hn : 0 < n) :
    (l.take n).head? = l.head? := by
  cases l with
  | nil => simp
  | cons a t =>
    cases n with
    | zero => omega
    | succ n' => simp

lemma slugify_props (s : List Char) :
    slugify_modid s ≠ [] ∧
    (∀ c ∈ (slugify_modid s).head?, isLowerAlpha c = true) ∧
    (∀ c ∈ slugify_modid s, isSlugChar c = true) ∧
    (slugify_modid s).length ≤ 64 ∧
    List.Chain' (fun a b => ¬(isSep a = true ∧ isSep b = true)) (slugify_modid s) := by
  unfold slugify_modid
  dsimp only
  set s2 := (s.map lowerSpaceToUnderscore).filter isSlugChar with hs2
  set s3 := stripBoth isSep (collapseRuns isSep s2) with hs3
  have hmem3 : ∀ c ∈ s3, isSlugChar c = true := by
    intro c hc
    exact List.of_mem_filter (mem_collapseRunsAux s2 false c (mem_stripBoth hc))
  have hch3 : List.Chain' (fun a b => ¬(isSep a = true ∧ isSep b = true)) s3 :=
    chain'_stripBoth (collapseRunsAux_chain' s2 false).1
  by_cases hguard : s3.head?.any isPyAlpha = true
  · rw [if_pos hguard]
    cases hs3' : s3 with
    | nil => rw [hs3'] at hguard; simp [Option.any] at hguard
    | cons c t =>
      rw [hs3'] at hguard
      simp only [List.head?_cons, Option.any_some] at hguard
      have hcslug : isSlugChar c = true :=
        hmem3 c (hs3' ▸ List.mem_cons_self c t)
      have hclower : isLowerAlpha c = true := slug_pyAlpha_lower hcslug hguard
      rw [if_neg (by simp)]
      refine ⟨?_, ?_, ?_, ?_, ?_⟩
      · simp [List.take_eq_nil_iff]
      · intro y hy
        rw [head?_take_pos _ 64 (by omega), List.head?_cons,
          Option.mem_some_iff] at hy
        exact hy ▸ hclower
      · intro y hy
        exact hmem3 y (hs3' ▸ (List.take_sublist 64 (c :: t)).mem hy)
      · rw [List.length_take]
        omega
      · exact chain'_take 64 (c :: t) (hs3' ▸ hch3)
  · rw [if_neg hguard]
    have hne : ('c' :: s3.dropWhile (fun c => isDigit09 c || isSep c)) ≠ [] := by
      simp
    rw [if_neg hne]
    refine ⟨?_, ?_, ?_, ?_, ?_⟩
    · simp [List.take_eq_nil_iff]
    · intro y hy
      rw [head?_take_pos _ 64 (by omega), List.head?_cons,
        Option.mem_some_iff] at hy
      subst hy
      decide
    · intro y hy
      have := (List.take_sublist 64 _).mem hy
      rcases List.mem_cons.mp this with h | h
      · subst h; decide
      · exact hmem3 y ((List.dropWhile_sublist _).mem h)
    · rw [List.length_take]
      omega
    · apply chain'_take
      rw [List.chain'_cons']
      constructor
      · intro y _ hc
        have : isSep 'c' = false := by decide
        rw [this] at hc
        exact Bool.false_ne_true hc.1
      · exact List.Chain'.suffix hch3 (List.dropWhile_suffix _)

/-! ## Claim C1 -/

/-- C1: for every input string `s`, `slugify_modid s` matches
`^[a-z][a-z0-9_-]{0,63}$` and contains no run of two or more consecutive
separator characters: it is non-empty, starts with a lowercase letter,
consists only of `[a-z0-9_-]`, has length at most 64, and no two adjacent
characters are both separators. -/
theorem spec_C1 (s : List Char) :
    slugify_modid s ≠ [] ∧
    (∀ c ∈ (slugify_modid s).head?, isLowerAlpha c = true) ∧
    (∀ c ∈ slugify_modid s, isSlugChar c = true) ∧
    (slugify_modid s).length ≤ 64 ∧
    List.Chain' (fun a b => ¬(isSep a = true ∧ isSep b = true)) (slugify_modid s) :=
  slugify_props s

/-! ## Claim C2 -/

/-- C2 counterexample: `slugify_modid` is not idempotent.  On the input
of 63 `a`s followed by `"_a"` the first pass truncates to 64 characters,
leaving a trailing `_`, which the second pass strips. -/
theorem spec_C2_counterexample :
    ¬(slugify_modid (slugify_modid (List.replicate 63 'a' ++ ['_', 'a'])) =
      slugify_modid (List.replicate 63 'a' ++ ['_', 'a'])) := by
  decide

/-- C2 (amended): `slugify_modid` is idempotent on every input `x` whose
slug does not end in a separator character — equivalently, whenever the
final truncation to 64 characters does not cut the slug at a separator.
(The original claim, idempotence for all strings, fails:
see the counterexample.) -/
theorem spec_C2 (x : List Char)
    (h : ∀ c ∈ (slugify_modid x).getLast?, isSep c = false) :
    slugify_modid (slugify_modid x) = slugify_modid x := by
  obtain ⟨hne, hhead, hmem, hlen, hch⟩ := slugify_props x
  set r := slugify_modid x with hr
  unfold slugify_modid
  dsimp only
  have hid : ∀ c ∈ r, lowerSpaceToUnderscore c = c := fun c hc =>
    lowerSpaceToUnderscore_eq_self (hmem c hc)
  have hmap : r.map lowerSpaceToUnderscore = r := by
    rw [List.map_congr_left (g := fun c => c) hid]
    exact List.map_id' r
  have hfilter : r.filter isSlugChar = r := List.filter_eq_self.mpr hmem
  have hheadns : ∀ c ∈ r.head?, isSep c = false := fun c hc =>
    lowerAlpha_not_sep (hhead c hc)
  have hcollapse : collapseRuns isSep r = r := by
    unfold collapseRuns
    exact collapseRunsAux_eq_self r false hch
      (fun hf => absurd hf Bool.false_ne_true)
  have hstrip : stripBoth isSep r = r := by
    unfold stripBoth
    rw [dropWhile_eq_self_of_head hheadns, dropTrailingWhile_eq_self h]
  have hguard : r.head?.any isPyAlpha = true := by
    cases hh : r.head? with
    | none => exact absurd (List.head?_eq_none_iff.mp hh) hne
    | some c =>
      have hc := hhead c (by rw [hh]; rfl)
      simp only [Option.any_some, isPyAlpha, hc, Bool.true_or]
  rw [hmap, hfilter, hcollapse, hstrip, if_pos hguard, if_neg hne,
    List.take_of_length_le hlen]

/-- Witness for C2's amended theorem at the concrete input `"my mod"`. -/
theorem spec_C2_witness :
    (∀ c ∈ (slugify_modid "my mod".toList).getLast?, isSep c = false) ∧
    slugify_modid (slugify_modid "my mod".toList) = slugify_modid "my mod".toList :=
  ⟨by decide, spec_C2 "my mod".toList (by decide)⟩

/-! ## Claim C3 -/

/-- The regex `[a-z_][a-z0-9_]*` on one dot-free segment. -/
def validSegment : List Char → Bool
  | [] => false
  | c :: rest =>
    (isLowerAlpha c || c == '_') &&
      (c :: rest).all (fun d => isLowerAlpha d || isDigit09 d || d == '_')

/-- The regex `^[a-z_][a-z0-9_]*(\.[a-z_][a-z0-9_]*)*$`: splitting on dots
yields only valid segments (an empty string or empty/consecutive/edge dots
all produce an empty segment, which is invalid). -/
def validNamespace (l : List Char) : Bool := (splitDots l).all validSegment

/-- C3: for every input string `s`, `safe_pkg s` matches
`^[a-z_][a-z0-9_]*(\.[a-z_][a-z0-9_]*)*$`: a non-empty dot-separated
sequence of segments, each lowercase `[a-z0-9_]+` starting with a letter or
underscore, with no empty segments and no consecutive dots (falling back to
the fixed two-level namespace `com.example` when no segment survives). -/
theorem spec_C3 (s : List Char) : validNamespace (safe_pkg s) = true := by
  unfold safe_pkg
  dsimp only
  set s2 := (s.map lowerDashSpaceToUnderscore).filter isPkgChar with hs2
  set s3 := stripBoth (· = '.') (collapseRuns (· = '.') s2) with hs3
  have hmem3 : ∀ c ∈ s3, isPkgChar c = true := by
    intro c hc
    exact List.of_mem_filter (mem_collapseRunsAux s2 false c (mem_stripBoth hc))
  set parts := (splitDots s3).filter (· ≠ []) with hparts
  set fixed := parts.map (fun p => if segHeadOk p then p else 'p' :: p) with hfixed
  by_cases hf : fixed = []
  · rw [if_pos hf]
    decide
  · rw [if_neg hf]
    have hpartmem : ∀ q ∈ parts, q ∈ splitDots s3 ∧ q ≠ [] := by
      intro q hq
      have := List.mem_filter.mp hq
      exact ⟨this.1, of_decide_eq_true this.2⟩
    have hnd : ∀ p ∈ fixed, '.' ∉ p := by
      intro p hp
      obtain ⟨q, hq, hfix⟩ := List.mem_map.mp hp
      obtain ⟨hq1, _⟩ := hpartmem q hq
      have hqnd : '.' ∉ q := mem_splitDots_no_dot s3 q hq1
      by_cases hh : segHeadOk q = true
      · rw [if_pos hh] at hfix
        exact hfix ▸ hqnd
      · rw [if_neg hh] at hfix
        subst hfix
        intro hm
        rcases List.mem_cons.mp hm with hm | hm
        · exact absurd hm.symm (by decide)
        · exact hqnd hm
    have hval : ∀ p ∈ fixed, validSegment p = true := by
      intro p hp
      obtain ⟨q, hq, hfix⟩ := List.mem_map.mp hp
      obtain ⟨hq1, hq2⟩ := hpartmem q hq
      have hqnd : '.' ∉ q := mem_splitDots_no_dot s3 q hq1
      have hchar : ∀ c ∈ q, (isLowerAlpha c || isDigit09 c || c == '_') = true := by
        intro c hc
        apply pkgChar_ne_dot (hmem3 c (mem_of_mem_splitDots s3 q c hq1 hc))
        intro hcd
        exact hqnd (hcd ▸ hc)
      cases hql : q with
      | nil => exact absurd hql hq2
      | cons c t =>
        subst hql
        by_cases hh : segHeadOk (c :: t) = true
        · rw [if_pos hh] at hfix
          subst hfix
          simp only [validSegment, Bool.and_eq_true]
          constructor
          · simp only [segHeadOk, Bool.or_eq_true] at hh
            rcases hh with hh | hh
            · have := pkg_pyAlpha_lower
                (hmem3 c (mem_of_mem_splitDots s3 _ c hq1 (List.mem_cons_self c t))) hh
              simp [this]
            · simp [hh]
          · exact List.all_eq_true.mpr hchar
        · rw [if_neg hh] at hfix
          subst hfix
          simp only [validSegment, Bool.and_eq_true]
          refine ⟨by decide, ?_⟩
          rw [List.all_eq_true]
          intro d hd
          rcases List.mem_cons.mp hd with hd | hd
          · subst hd; decide
          · exact hchar d hd
    unfold validNamespace
    rw [splitDots_joinDots fixed hf hnd]
    exact List.all_eq_true.mpr hval

/-! ## Claim C4 -/

/-- C4: for every `Meta`, the derived namespace used to place generated
source files — `Meta.base_package` of the normalized record — equals the
namespace normalizer re-applied to the concatenation of the normalized
namespace, a dot, and the normalized module id. -/
theorem spec_C4 (m : Meta) :
    (m.normalized).base_package =
      safe_pkg (safe_pkg m.maven_group ++ '.' :: slugify_modid m.mod_id) := rfl

/-! ## Claim C5 -/

/-- A concrete raw `Meta` record with the given description, used for
counterexamples and witnesses. -/
def metaWithDescription (d : List Char) : Meta where
  out_dir := "/tmp".toList
  project_name := "Proj".toList
  client_name := "CBClient".toList
  mod_id := "cbclient".toList
  maven_group := "com.example".toList
  mod_version := "0.1.0".toList
  authors := ["A".toList]
  description := d
  license_name := "MIT".toList

/-- C5 counterexample: for the whitespace-only (blank but non-empty)
description `" "`, normalization produces the empty — hence blank —
description, not a non-blank default: Python's `or` falls back only on the
empty string, and `.strip()` runs after the fallback choice. -/
theorem spec_C5_counterexample :
    pyStrip (metaWithDescription [' ']).description = [] ∧
    ((metaWithDescription [' ']).normalized).description = [] := by
  constructor
  · decide
  · decide

/-- C5 (amended): only for the exactly-empty description does normalization
substitute the non-blank default composed from the (raw) display name; any
non-empty description — including whitespace-only ones, which trim to the
empty string — is kept trimmed. -/
theorem spec_C5 (m : Meta) :
    (m.description = [] →
      (m.normalized).description =
        pyStrip (m.client_name ++ " - Fabric client mod".toList) ∧
      (m.normalized).description ≠ []) ∧
    (m.description ≠ [] → (m.normalized).description = pyStrip m.description) := by
  constructor
  · intro hd
    constructor
    · simp [Meta.normalized, hd]
    · have hgoal : (m.normalized).description =
          pyStrip (m.client_name ++ " - Fabric client mod".toList) := by
        simp [Meta.normalized, hd]
      rw [hgoal]
      have hmem : 'F' ∈ m.client_name ++ " - Fabric client mod".toList :=
        List.mem_append_right _ (by decide)
      exact pyStrip_ne_nil 'F' hmem (by decide)
  · intro hd
    simp [Meta.normalized, hd]

/-- Witness for C5's amended theorem at a concrete record with empty
description. -/
theorem spec_C5_witness :
    ((metaWithDescription []).normalized).description =
      pyStrip ((metaWithDescription []).client_name ++ " - Fabric client mod".toList) ∧
    ((metaWithDescription []).normalized).description ≠ [] :=
  (spec_C5 (metaWithDescription [])).1 rfl

/-! ## Claim C6 -/

/-- C6: target resolution.  If the primary candidate
`output_dir/project_folder_name` does not exist or is an empty directory
(the observed conjunction is false), `generate` uses exactly that path;
if it exists and is non-empty, `generate` uses the path formed by appending
`_` and the timestamp to the folder name, which is never equal to the
primary candidate. -/
theorem spec_C6 (dirExists dirNonEmpty : List Char → Bool) (now : List Char)
    (meta : Meta) :
    ((dirExists ((meta.normalized).out_dir ++ '/' :: (meta.normalized).project_name) &&
        dirNonEmpty ((meta.normalized).out_dir ++ '/' :: (meta.normalized).project_name)) = false →
      (generate dirExists dirNonEmpty now meta).1 =
        (meta.normalized).out_dir ++ '/' :: (meta.normalized).project_name) ∧
    ((dirExists ((meta.normalized).out_dir ++ '/' :: (meta.normalized).project_name) &&
        dirNonEmpty ((meta.normalized).out_dir ++ '/' :: (meta.normalized).project_name)) = true →
      (generate dirExists dirNonEmpty now meta).1 =
        (meta.normalized).out_dir ++ '/' :: ((meta.normalized).project_name ++ '_' :: now) ∧
      (generate dirExists dirNonEmpty now meta).1 ≠
        (meta.normalized).out_dir ++ '/' :: (meta.normalized).project_name) := by
  constructor
  · intro h
    show (if _ = true then _ else _) = _
    rw [h]
    simp
  · intro h
    constructor
    · show (if _ = true then _ else _) = _
      rw [h]
      simp
    · show (if _ = true then _ else _) ≠ _
      rw [h]
      simp only [if_pos rfl]
      intro heq
      have h2 : (meta.normalized).project_name ++ '_' :: now =
          (meta.normalized).project_name := by
        have h3 := List.append_cancel_left heq
        exact (List.cons.injEq _ _ _ _).mp h3 |>.2
      have hlen := congrArg List.length h2
      simp only [List.length_append, List.length_cons] at hlen
      omega

/-- Witness for C6 with a filesystem observation reporting an existing,
non-empty candidate directory. -/
theorem spec_C6_witness :
    (generate (fun _ => true) (fun _ => true) "20250101_000000".toList
        (metaWithDescription "d".toList)).1 ≠
      ((metaWithDescription "d".toList).normalized).out_dir ++ '/' ::
        ((metaWithDescription "d".toList).normalized).project_name :=
  ((spec_C6 (fun _ => true) (fun _ => true) "20250101_000000".toList
    (metaWithDescription "d".toList)).2 rfl).2

/-! ## Claim C7 -/

/-- Filtering on blank-after-trim and then trimming equals trimming and
then filtering out blanks (the generator expression
`tuple(a.strip() for a in authors if a.strip())`). -/
lemma filter_map_pyStrip (l : List (List Char)) :
    (l.filter (fun a => !(pyStrip a).isEmpty)).map pyStrip =
      (l.map pyStrip).filter (fun a => !a.isEmpty) := by
  induction l with
  | nil => rfl
  | cons a t ih =>
    simp only [List.filter_cons, List.map_cons]
    cases h : !(pyStrip a).isEmpty with
    | true => simp [h, ih]
    | false => simp [h, ih]

/-- C7: the normalized authors field is the ordered sequence of the trimmed
non-blank input author strings, with the single-element placeholder
`["Unknown"]` when no non-blank string survives trimming; it is never
empty. -/
theorem spec_C7 (m : Meta) :
    ((m.normalized).authors =
      (if (m.authors.map pyStrip).filter (fun a => !a.isEmpty) = []
       then ["Unknown".toList]
       else (m.authors.map pyStrip).filter (fun a => !a.isEmpty))) ∧
    (m.normalized).authors ≠ [] := by
  have hcomm := filter_map_pyStrip m.authors
  have heq : (m.normalized).authors =
      (if (m.authors.map pyStrip).filter (fun a => !a.isEmpty) = []
       then ["Unknown".toList]
       else (m.authors.map pyStrip).filter (fun a => !a.isEmpty)) := by
    show (if (m.authors.filter (fun a => !(pyStrip a).isEmpty)).map pyStrip = []
          then _ else (m.authors.filter (fun a => !(pyStrip a).isEmpty)).map pyStrip) = _
    rw [hcomm]
  refine ⟨heq, ?_⟩
  rw [heq]
  by_cases hl : (m.authors.map pyStrip).filter (fun a => !a.isEmpty) = []
  · rw [if_pos hl]
    simp
  · rw [if_neg hl]
    exact hl

/-! ## Claim C8 -/

/-- C8: rendering is deterministic.  Two runs of `generate` whose raw
metadata normalize to the same `CanonicalMetadata` produce exactly the same
write set — every file path and content — regardless of the filesystem
observations and the clock; contents are a pure function of the canonical
metadata and the locked version constants. -/
theorem spec_C8 (ex1 ne1 ex2 ne2 : List Char → Bool) (t1 t2 : List Char)
    (m1 m2 : Meta) (h : m1.normalized = m2.normalized) :
    (generate ex1 ne1 t1 m1).2 = (generate ex2 ne2 t2 m2).2 := by
  show generateWrites m1.normalized = generateWrites m2.normalized
  rw [h]

/-- Witness for C8 at a concrete record under two different filesystem and
clock observations. -/
theorem spec_C8_witness :
    (generate (fun _ => true) (fun _ => true) "a".toList
        (metaWithDescription "d".toList)).2 =
      (generate (fun _ => false) (fun _ => false) "b".toList
        (metaWithDescription "d".toList)).2 :=
  spec_C8 _ _ _ _ _ _ _ _ rfl

/-! ## Claim C9 -/

/-- C9: every textual file written by `write_file` ends with exactly one
`\n` and has no trailing whitespace before it: the written bytes are the
trimmed content plus a single newline, and the character preceding the
final newline (when one exists) is never whitespace. -/
theorem spec_C9 (content : List Char) :
    (write_file_text content).getLast? = some '\n' ∧
    (∀ c ∈ ((write_file_text content).dropLast).getLast?, pyIsSpace c = false) := by
  constructor
  · exact List.getLast?_concat _
  · show ∀ c ∈ ((pyStrip content ++ ['\n']).dropLast).getLast?, pyIsSpace c = false
    rw [List.dropLast_concat]
    exact getLast?_stripBoth_not

/-- Witness for C9 at the concrete content `"hi "`. -/
theorem spec_C9_witness :
    (write_file_text "hi ".toList).getLast? = some '\n' ∧ pyIsSpace 'i' = false :=
  ⟨(spec_C9 "hi ".toList).1, (spec_C9 "hi ".toList).2 'i' (by decide)⟩

/-! ## Claim C10 -/

/-- C10: internal path consistency of the generated tree.  For every
normalized metadata record, the `icon` value recorded in the generated
`fabric.mod.json` manifest is `assets/<mod_id>/icon.png` and the binary
icon is written exactly at that path under the resources root next to the
manifest; likewise the single filename in the manifest's `mixins` entry is
`<mod_id>.mixins.json`, the name of the mixins configuration file written
next to the manifest. -/
theorem spec_C10 (meta : Meta) :
    List.lookup "icon".toList (fabricKVs meta.normalized) =
      some (.jstr ("assets/".toList ++ (meta.normalized).mod_id ++ "/icon.png".toList)) ∧
    List.lookup "mixins".toList (fabricKVs meta.normalized) =
      some (.jarr [.jstr ((meta.normalized).mod_id ++ ".mixins.json".toList)]) ∧
    (resPath "fabric.mod.json".toList,
      Content.text (fabricModJson meta.normalized)) ∈ generateWrites meta.normalized ∧
    (resPath ("assets/".toList ++ (meta.normalized).mod_id ++ "/icon.png".toList),
      Content.binary ICON_B64) ∈ generateWrites meta.normalized ∧
    (resPath ((meta.normalized).mod_id ++ ".mixins.json".toList),
      Content.text (mixinsJson meta.normalized)) ∈ generateWrites meta.normalized := by
  refine ⟨rfl, rfl, ?_, ?_, ?_⟩
  · simp [generateWrites]
  · simp [generateWrites]
  · simp [generateWrites]
